import Mathlib

/-!
Verification of the `agentik` runner core against its specification.

The definitions below are shallow embeddings of functions from
`runner/state.py`, `runner/roadmap.py` and `runner/opencode.py`:

* the run-state store (`_raw_state`, `save_runner_state`,
  `load_runner_state`, `mark_done`) and the per-project budget tracker
  (`record_project_spend`) from `state.py`;
* the task-graph layering and readiness computation
  (`get_task_layers`, `get_ready_tasks`) from `roadmap.py`;
* the model-misconfiguration log scan (`_check_model_error`) and the
  monthly budget guard (`check_monthly_budget`) from `opencode.py`.

Python dicts persisted as JSON are modelled either at the JSON level
(for claims about arbitrary file content) or as typed records matching
the normalized shape `_raw_state` returns and `_write_state` writes.
Machine integers are embedded as `Int`/`Nat`; `max(0, x)` over ints is
`Int.toNat`.
-/

namespace Agentik

/-! ## JSON values - model of Python `json.loads` results -/

/-- A JSON value as produced by Python's `json.loads`.  Numbers are
modelled as integers (the runner state files only ever hold ints;
fractional values play no role in any claim). -/
inductive Json where
  | null : Json
  | bool (b : Bool) : Json
  | num (n : Int) : Json
  | str (s : String) : Json
  | arr (elems : List Json) : Json
  | obj (fields : List (String × Json)) : Json
  deriving Repr

/-- Dictionary lookup: `data.get(key, default)` on a JSON object's
field list (first binding wins, as Python dict keys are unique). -/
def Json.getD (fields : List (String × Json)) (key : String) (dflt : Json) : Json :=
  match fields.find? (fun kv => kv.1 = key) with
  | some kv => kv.2
  | none => dflt

/-- Python truthiness of a JSON value: `None`, `False`, `0`, `""`,
`[]` and `{}` are falsy; everything else is truthy. -/
def Json.truthy : Json → Bool
  | .null => false
  | .bool b => b
  | .num n => n != 0
  | .str s => s != ""
  | .arr l => !l.isEmpty
  | .obj f => !f.isEmpty

/-! ## `_raw_state` over arbitrary file content (state.py lines 229-252) -/

/-- The content of the persisted `.runner_state.json` file: absent,
present but not parseable as JSON (Python raises `json.JSONDecodeError`),
or present with a parsed JSON value. -/
inductive FileContent where
  | absent : FileContent
  | notJson : FileContent
  | json (j : Json) : FileContent
  deriving Repr

/-- The normalized dict `_raw_state` returns, with JSON-valued fields
exactly as `data.get` produces them. -/
structure RawStateJ where
  current_task : Json
  attempt : Json
  fix_logs : Json
  completed : Json
  task_started_at : Json
  task_durations : Json
  failed : Json
  deriving Repr

/-- The defaults `_raw_state` produces when `data` is the empty dict. -/
def emptyRawState : RawStateJ :=
  { current_task := .null
    attempt := .num 0
    fix_logs := .null
    completed := .arr []
    task_started_at := .null
    task_durations := .arr []
    failed := .arr [] }

/-- Shallow embedding of `_raw_state` (state.py lines 229-252) over
arbitrary file content.  An absent file or a `json.JSONDecodeError`
leaves `data = {}`.  When the parsed JSON is a dict, each field is read
with `data.get`; the back-compat line
`current = data.get("current_task") or data.get("task")` uses Python
`or` (truthiness).  When the parsed JSON is NOT a dict, `data.get`
raises `AttributeError`, modelled as `Except.error`. -/
def rawStateOfFile (content : FileContent) : Except String RawStateJ :=
  match content with
  | .absent => .ok emptyRawState
  | .notJson => .ok emptyRawState
  | .json (.obj fields) =>
      let current :=
        let c := Json.getD fields "current_task" .null
        if c.truthy then c else Json.getD fields "task" .null
      .ok
        { current_task := current
          attempt := Json.getD fields "attempt" (.num 0)
          fix_logs := Json.getD fields "fix_logs" .null
          completed := Json.getD fields "completed" (.arr [])
          task_started_at := Json.getD fields "task_started_at" .null
          task_durations := Json.getD fields "task_durations" (.arr [])
          failed := Json.getD fields "failed" (.arr []) }
  | .json _ => .error "AttributeError"

/-! ## Typed run-state store (state.py lines 262-328)

Files written by the store itself (`_write_state`) always hold the
normalized dict shape, so for the save/load/mark-done claims the state
is modelled as a typed record.  Timestamps are ISO strings; parsing a
timestamp (`datetime.fromisoformat`, which can fail) is passed in as a
function, and "now" values are supplied explicitly since the embedding
is pure. -/

/-- An entry of the `completed` list: either a legacy bare string or the
structured `{"task": ..., "attempts": ...}` record. -/
inductive CompletedEntry where
  | legacy (task : String) : CompletedEntry
  | entry (task : String) (attempts : Int) : CompletedEntry
  deriving Repr, DecidableEq

/-- The task heading an entry refers to (`_completed_tasks`, state.py
lines 293-301, adds `entry["task"]` for dicts and the entry itself for
strings). -/
def CompletedEntry.taskOf : CompletedEntry → String
  | .legacy t => t
  | .entry t _ => t

/-- The normalized run-state record (the dict `_raw_state` returns and
`_write_state` persists). -/
structure StateRec where
  current_task : Option String
  attempt : Int
  fix_logs : Option String
  completed : List CompletedEntry
  task_started_at : Option String
  task_durations : List Int
  failed : List String
  deriving Repr, DecidableEq

/-- Python truthiness of an optional string (`None` and `""` falsy). -/
def optStrTruthy : Option String → Bool
  | none => false
  | some s => s != ""

/-- Re-reading a state file previously written by `_write_state`:
`_raw_state` passes every field through unchanged except
`current_task`, which goes through
`data.get("current_task") or data.get("task")` — a falsy persisted
value (here: `None` or `""`) falls back to the absent legacy `task`
key, i.e. to `None`. -/
def readNorm (s : StateRec) : StateRec :=
  { s with current_task := if optStrTruthy s.current_task then s.current_task else none }

/-- Shallow embedding of `save_runner_state` (state.py lines 262-282):
read the persisted state, upsert the in-progress fields (truncating
`fix_logs` to its last 3000 characters when longer), and stamp
`task_started_at` only on attempt 0 and only when not already
(truthily) stamped. -/
def save_runner_state (disk : StateRec) (task : String) (attempt : Int)
    (fix_logs : Option String) (now : String) : StateRec :=
  let st := readNorm disk
  { st with
    current_task := some task
    attempt := attempt
    fix_logs :=
      match fix_logs with
      | none => none
      | some l => if l.length > 3000 then some (l.drop (l.length - 3000)) else some l
    task_started_at :=
      if attempt = 0 ∧ optStrTruthy st.task_started_at = false then some now
      else st.task_started_at }

/-- Shallow embedding of `load_runner_state` (state.py lines 285-290):
return the state when a current task is recorded, else `none`. -/
def load_runner_state (disk : StateRec) : Option StateRec :=
  let st := readNorm disk
  if st.current_task ≠ none then some st else none

/-- Shallow embedding of `mark_done` (state.py lines 309-328).
`parse` models `datetime.fromisoformat` (`none` = the caught
`ValueError`/`TypeError`), `now` the current time in seconds. -/
def mark_done (parse : String → Option Int) (now : Int)
    (disk : StateRec) (task : String) : StateRec :=
  let st := readNorm disk
  let completed' :=
    if task ∈ st.completed.map CompletedEntry.taskOf then st.completed
    else st.completed ++ [.entry task (st.attempt + 1)]
  let durations' :=
    match st.task_started_at with
    | some started =>
        if started = "" then st.task_durations
        else
          match parse started with
          | some t0 => st.task_durations ++ [now - t0]
          | none => st.task_durations
    | none => st.task_durations
  { current_task := none
    attempt := 0
    fix_logs := none
    completed := completed'
    task_started_at := none
    task_durations := durations'
    failed := st.failed }

/-- Number of entries of a completed list referring to `task`. -/
def countFor (task : String) (l : List CompletedEntry) : Nat :=
  (l.filter (fun e => e.taskOf = task)).length

/-! ## Per-project budget tracker (state.py lines 140-218) -/

/-- One record of the append-only `sessions` list. -/
structure SessionRec where
  date : String
  task : String
  phase : String
  tokens : Nat
  attempt : Int
  parallel_with : Option (List String)
  deriving Repr, DecidableEq

/-- The per-project `budget.json` record. -/
structure Budget where
  project : String
  total_tokens : Nat
  total_calls : Nat
  sessions : List SessionRec
  deriving Repr, DecidableEq

/-- The freshly initialised budget `load_project_budget` returns when no
file exists (state.py lines 157-162). -/
def freshBudget (name : String) : Budget :=
  { project := name, total_tokens := 0, total_calls := 0, sessions := [] }

/-- Shallow embedding of `record_project_spend` (state.py lines
172-218): add `max(0, delta_tokens)` to the total, bump the call count,
and append exactly one session record; `parallel_with` is stored only
when the batch has more than one member.  (`max 0` over ints is
`Int.toNat`.) -/
def record_project_spend (b : Budget) (today task phase : String)
    (delta_tokens : Int) (attempt : Int)
    (parallel_batch : Option (List String)) : Budget :=
  let session : SessionRec :=
    { date := today
      task := task
      phase := phase
      tokens := delta_tokens.toNat
      attempt := attempt
      parallel_with :=
        match parallel_batch with
        | some batch => if batch.length > 1 then some batch else none
        | none => none }
  { b with
    total_tokens := b.total_tokens + delta_tokens.toNat
    total_calls := b.total_calls + 1
    sessions := b.sessions ++ [session] }

/-- One call of a `record_project_spend` sequence: the task/phase
strings, the token delta, the attempt index and the parallel batch. -/
structure SpendCall where
  today : String
  task : String
  phase : String
  delta : Int
  attempt : Int
  batch : Option (List String)
  deriving Repr, DecidableEq

/-- Folding a sequence of calls through `record_project_spend`. -/
def runSpendCalls (b : Budget) (calls : List SpendCall) : Budget :=
  calls.foldl
    (fun acc c => record_project_spend acc c.today c.task c.phase c.delta c.attempt c.batch) b

/-! ## Task-graph layering and readiness (roadmap.py lines 246-293)

Tasks are kept abstract with decidable equality (the source uses
`## NNN - Title` heading strings).  The dependency graph is a total
function, matching `graph.get(t, [])`; whether a task is a milestone
(`is_milestone_task`) is a boolean predicate.  The `while remaining:`
loop is embedded with explicit fuel `all_tasks.length`; each iteration
places at least one task, so the fuel never runs out (the partition
theorem below certifies this). -/

section TaskGraph

variable {τ : Type} [DecidableEq τ]

/-- The candidate test of `get_task_layers` (and the dependency test of
`get_ready_tasks`): `all(d in placed for d in graph.get(t, []))`. -/
def depsIn (graph : τ → List τ) (placed : List τ) (t : τ) : Bool :=
  (graph t).all fun d => decide (d ∈ placed)

/-- The milestone split of the loop body (roadmap.py lines 263-271):
the first milestone among the candidates alone, or else all
non-milestone candidates. -/
def pickLayer (ms : τ → Bool) (candidates : List τ) : List τ :=
  match candidates.filter ms with
  | m :: _ => [m]
  | [] => candidates.filter fun t => !ms t

/-- One iteration of the `get_task_layers` loop body (roadmap.py lines
256-271): candidates are the remaining tasks with all dependencies
placed, falling back to all remaining tasks when there are none; a
milestone among the candidates is placed alone, otherwise the layer is
all non-milestone candidates. -/
def layerOf (ms : τ → Bool) (graph : τ → List τ) (placed remaining : List τ) : List τ :=
  pickLayer ms
    (if (remaining.filter (depsIn graph placed)).isEmpty then remaining
     else remaining.filter (depsIn graph placed))

/-- The `while remaining:` loop of `get_task_layers` (roadmap.py lines
255-275), with fuel.  Each produced layer is appended to `placed` and
filtered out of `remaining`. -/
def layersAux (ms : τ → Bool) (graph : τ → List τ) :
    Nat → List τ → List τ → List (List τ)
  | 0, _, _ => []
  | fuel + 1, placed, remaining =>
    if remaining.isEmpty then []
    else
      layerOf ms graph placed remaining ::
        layersAux ms graph fuel (placed ++ layerOf ms graph placed remaining)
          (remaining.filter fun t =>
            !decide (t ∈ placed ++ layerOf ms graph placed remaining))

/-- Shallow embedding of `get_task_layers` (roadmap.py lines 246-277). -/
def get_task_layers (ms : τ → Bool) (graph : τ → List τ) (all_tasks : List τ) :
    List (List τ) :=
  layersAux ms graph all_tasks.length [] all_tasks

/-- The layer scan of `get_ready_tasks` (roadmap.py lines 288-293): the
first layer with an undone task yields its undone tasks whose
dependencies are all done. -/
def readyFromLayers (graph : τ → List τ) (done : List τ) :
    List (List τ) → List τ
  | [] => []
  | layer :: rest =>
    if (layer.filter fun t => !decide (t ∈ done)).isEmpty then
      readyFromLayers graph done rest
    else (layer.filter fun t => !decide (t ∈ done)).filter (depsIn graph done)

/-- Shallow embedding of `get_ready_tasks` (roadmap.py lines 280-293). -/
def get_ready_tasks (ms : τ → Bool) (graph : τ → List τ)
    (all_tasks : List τ) (done : List τ) : List τ :=
  readyFromLayers graph done (get_task_layers ms graph all_tasks)

end TaskGraph

/-! ## Model-misconfiguration log scan (opencode.py lines 143-178)

The nine `_MODEL_ERROR_PATTERNS` regexes use only literal characters,
the character class `[_ ]`, `.`, `.+` and top-level alternation, all
under `re.IGNORECASE`.  They are embedded as token lists for a small
backtracking matcher (alternations are flattened into separate
patterns, which preserves the matched/not-matched outcome of
`re.search`).  `.` and `.+` match any character except a newline, as in
Python without `re.DOTALL`; literals compare case-insensitively. -/

/-- One token of an embedded regex. -/
inductive RTok where
  | lit (c : Char) : RTok
  | cls (cs : List Char) : RTok
  | dot : RTok
  | dotPlus : RTok
  deriving Repr, DecidableEq

/-- The literal tokens of a string (case handled at comparison time). -/
def litToks (s : String) : List RTok := s.data.map RTok.lit

/-- Case-insensitive single-character comparison (`re.IGNORECASE`). -/
def charIEq (a b : Char) : Bool := a.toLower == b.toLower

/-- Match a token list against a prefix of `cs` (anchored at the start,
like `re.match` at one position).  `fuel` strictly exceeds the depth of
the recursion, which consumes a token or a character at every step; the
entry points below supply `toks.length + cs.length + 1`. -/
def matchHere (fuel : Nat) (toks : List RTok) (cs : List Char) : Bool :=
  match fuel with
  | 0 => false
  | fuel + 1 =>
    match toks, cs with
    | [], _ => true
    | _ :: _, [] => false
    | .lit c :: rest, c' :: cs' => charIEq c c' && matchHere fuel rest cs'
    | .cls l :: rest, c' :: cs' => l.contains c' && matchHere fuel rest cs'
    | .dot :: rest, c' :: cs' => (c' != '\n') && matchHere fuel rest cs'
    | .dotPlus :: rest, c' :: cs' =>
        (c' != '\n') && (matchHere fuel rest cs' || matchHere fuel (.dotPlus :: rest) cs')

/-- Unanchored search, like `re.search`: try every suffix. -/
def rsearch (toks : List RTok) (s : String) : Bool :=
  s.data.tails.any fun suffixChars =>
    matchHere (toks.length + suffixChars.length + 1) toks suffixChars

/-- The `_MODEL_ERROR_PATTERNS` list (opencode.py lines 143-153), with
each top-level alternation split into one pattern per branch:
`ProviderModelNotFoundError`; `model[_ ]not[_ ]found`;
`model .+ (is not available|does not exist)`; `unknown model`;
`invalid model`; `no such model`; `model .+ not supported`;
`Unauthorized|invalid.api.key|authentication.failed`;
`PROVIDER_NOT_CONFIGURED`. -/
def modelErrorPatterns : List (List RTok) :=
  [ litToks "ProviderModelNotFoundError"
  , litToks "model" ++ [.cls ['_', ' ']] ++ litToks "not" ++ [.cls ['_', ' ']] ++ litToks "found"
  , litToks "model " ++ [.dotPlus] ++ litToks " is not available"
  , litToks "model " ++ [.dotPlus] ++ litToks " does not exist"
  , litToks "unknown model"
  , litToks "invalid model"
  , litToks "no such model"
  , litToks "model " ++ [.dotPlus] ++ litToks " not supported"
  , litToks "Unauthorized"
  , litToks "invalid" ++ [.dot] ++ litToks "api" ++ [.dot] ++ litToks "key"
  , litToks "authentication" ++ [.dot] ++ litToks "failed"
  , litToks "PROVIDER_NOT_CONFIGURED"
  ]

/-- The scanned tail: the last 80 lines of the log joined with
newlines (`"\n".flatten(text.splitlines()[-80:])`, opencode.py line 169).
The log is modelled as its list of lines. -/
def logTail (lines : List String) : String :=
  String.intercalate "\n" (lines.drop (lines.length - 80))

/-- Shallow embedding of `_check_model_error` (opencode.py lines
156-178): scan the tail for the first matching pattern and raise
`ModelConfigError` (modelled as `Except.error` carrying the extracted
one-line summary) when one matches; return normally otherwise. -/
def check_model_error (lines : List String) : Except String Unit :=
  let tail := logTail lines
  match modelErrorPatterns.find? (fun p => rsearch p tail) with
  | some p =>
      let line :=
        match (tail.splitOn "\n").find? (fun l => rsearch p l) with
        | some l => l
        | none => tail
      .error ("Model configuration error (non-retriable): " ++ line)
  | none => .ok ()

/-! ## Monthly budget guard (opencode.py lines 184-303, state.py 96-134)

Only the budget logic of `check_monthly_budget` is embedded — the
baseline load/reset (lines 194-204) and the hard stop (lines 297-303);
the Rich status table in between is presentation only and cannot change
the outcome.  `sys.exit(2)` is modelled as `Except.error 2`. -/

/-- Cumulative token statistics as returned by `get_token_stats`. -/
structure TokenStats where
  input : Nat
  output : Nat
  cache_read : Nat
  cache_write : Nat
  total : Nat
  deriving Repr, DecidableEq

/-- The persisted `.budget_state.json` baseline record; either field
may be missing on disk. -/
structure StoredBudgetState where
  month : Option String
  baseline_stats : Option TokenStats
  deriving Repr, DecidableEq

/-- Per-key `max(0, stats[k] - baseline[k])` (opencode.py line 204);
over naturals the saturating subtraction is exactly `max 0`. -/
def spentStats (stats baseline : TokenStats) : TokenStats :=
  { input := stats.input - baseline.input
    output := stats.output - baseline.output
    cache_read := stats.cache_read - baseline.cache_read
    cache_write := stats.cache_write - baseline.cache_write
    total := stats.total - baseline.total }

/-- Shallow embedding of the budget logic of `check_monthly_budget`:
given the stored baseline, the current month key, the current
cumulative stats and the configured limit, return the (possibly reset
and re-saved) baseline state together with `Except.error 2` when the
month-to-date spend reaches the limit, `Except.ok ()` otherwise. -/
def check_monthly_budget (stored : StoredBudgetState) (month_key : String)
    (stats : TokenStats) (limit : Nat) :
    StoredBudgetState × Except Nat Unit :=
  let state :=
    if stored.month ≠ some month_key ∨ stored.baseline_stats = none then
      { month := some month_key, baseline_stats := some stats : StoredBudgetState }
    else stored
  let baseline := state.baseline_stats.getD ⟨0, 0, 0, 0, 0⟩
  let spent_tokens := (spentStats stats baseline).total
  (state, if spent_tokens ≥ limit then .error 2 else .ok ())

/-! ## Helper lemmas for the completed list -/

/-- A task heading is mentioned by a completed list exactly when its
entry count is positive. -/
theorem mem_taskOf_iff_countFor_pos (task : String) (l : List CompletedEntry) :
    task ∈ l.map CompletedEntry.taskOf ↔ 0 < countFor task l := by
  simp only [countFor, List.length_pos, Ne, List.filter_eq_nil_iff, List.mem_map]
  constructor
  · rintro ⟨e, he, rfl⟩ h
    exact h e he (by simp)
  · intro h
    by_contra hc
    push_neg at hc
    exact h fun e he hd => hc e he (by simpa using hd)

/-- Appending a fresh structured entry for `task` adds one to its
count. -/
theorem countFor_append_entry (task : String) (l : List CompletedEntry) (a : Int) :
    countFor task (l ++ [.entry task a]) = countFor task l + 1 := by
  simp [countFor, List.filter_append, CompletedEntry.taskOf]

/-- Field equations of `record_project_spend`. -/
theorem record_project_spend_fields (b : Budget) (today task phase : String)
    (delta : Int) (attempt : Int) (batch : Option (List String)) :
    (record_project_spend b today task phase delta attempt batch).total_calls
      = b.total_calls + 1 ∧
    (record_project_spend b today task phase delta attempt batch).total_tokens
      = b.total_tokens + delta.toNat ∧
    (record_project_spend b today task phase delta attempt batch).sessions.length
      = b.sessions.length + 1 := by
  refine ⟨rfl, rfl, ?_⟩
  simp [record_project_spend]

/-! ## Claim theorems: run-state store and budget -/

/-- C4 (amended): for every persisted state, nonempty task heading T,
attempt a and fix-log value, `save_runner_state` followed by
`load_runner_state` returns a record whose current task is T, whose
attempt is a, and whose fix logs are the saved logs, truncated to their
last 3000 characters when longer than 3000.  (The empty heading is
excluded: `_raw_state`'s legacy fallback treats a falsy current task as
no task in flight.) -/
theorem C4_state_roundtrip (disk : StateRec) (T : String) (a : Int)
    (logs : Option String) (now : String) (hT : T ≠ "") :
    ∃ st, load_runner_state (save_runner_state disk T a logs now) = some st ∧
      st.current_task = some T ∧ st.attempt = a ∧
      (logs = none → st.fix_logs = none) ∧
      (∀ l, logs = some l → l.length ≤ 3000 → st.fix_logs = some l) ∧
      (∀ l, logs = some l → l.length > 3000 →
        st.fix_logs = some (l.drop (l.length - 3000))) := by
  refine ⟨readNorm (save_runner_state disk T a logs now), ?_, ?_, ?_, ?_, ?_, ?_⟩
  · simp only [load_runner_state]
    rw [if_pos]
    simp only [readNorm, save_runner_state, optStrTruthy]
    simpa [readNorm, save_runner_state, optStrTruthy] using fun h => hT h
  · simp [readNorm, save_runner_state, optStrTruthy, hT]
  · simp [readNorm, save_runner_state]
  · intro h; subst h; simp [readNorm, save_runner_state]
  · intro l h hlen; subst h
    simp [readNorm, save_runner_state, Nat.not_lt.mpr hlen]
  · intro l h hlen; subst h
    simp [readNorm, save_runner_state, hlen]

/-- C4 counterexample: with the empty string as task heading the
round-trip fails — `load_runner_state` returns `none` because the
persisted falsy `current_task` falls through the legacy
`or data.get("task")` fallback. -/
theorem C4_counterexample :
    load_runner_state
      (save_runner_state ⟨none, 0, none, [], none, [], []⟩ "" 1 none "T0") = none := by
  decide

/-- C4 witness: concrete round-trip for task `## 002 - B`, attempt 1,
logs `"boom"`. -/
theorem C4_witness :
    ∃ st, load_runner_state
        (save_runner_state ⟨none, 0, none, [], none, [], []⟩ "## 002 - B" 1
          (some "boom") "T0") = some st ∧
      st.current_task = some "## 002 - B" ∧ st.attempt = 1 ∧
      (some "boom" = none → st.fix_logs = none) ∧
      (∀ l, some "boom" = some l → l.length ≤ 3000 → st.fix_logs = some l) ∧
      (∀ l, some "boom" = some l → l.length > 3000 →
        st.fix_logs = some (l.drop (l.length - 3000))) :=
  C4_state_roundtrip ⟨none, 0, none, [], none, [], []⟩ "## 002 - B" 1
    (some "boom") "T0" (by decide)

/-- C5: folding any sequence of K `record_project_spend` calls (token
deltas arbitrary, zero and negative included) over the freshly
initialised budget yields `total_calls = K`, `total_tokens` equal to
the sum of the clamped-at-zero deltas, and exactly one session record
per call. -/
theorem C5_budget_call_count_exact (name : String) (calls : List SpendCall) :
    (runSpendCalls (freshBudget name) calls).total_calls = calls.length ∧
    (runSpendCalls (freshBudget name) calls).total_tokens
      = (calls.map fun c => c.delta.toNat).sum ∧
    (runSpendCalls (freshBudget name) calls).sessions.length = calls.length ∧
    ∀ (b : Budget) (c : SpendCall),
      ∃ s, (record_project_spend b c.today c.task c.phase c.delta c.attempt
        c.batch).sessions = b.sessions ++ [s] := by
  have key : ∀ (cs : List SpendCall) (b : Budget),
      (runSpendCalls b cs).total_calls = b.total_calls + cs.length ∧
      (runSpendCalls b cs).total_tokens
        = b.total_tokens + (cs.map fun c => c.delta.toNat).sum ∧
      (runSpendCalls b cs).sessions.length = b.sessions.length + cs.length := by
    intro cs
    induction cs with
    | nil => intro b; simp [runSpendCalls]
    | cons c cs ih =>
      intro b
      have h := ih (record_project_spend b c.today c.task c.phase c.delta
        c.attempt c.batch)
      simp only [runSpendCalls, List.foldl_cons] at h ⊢
      have hf := record_project_spend_fields b c.today c.task c.phase c.delta
        c.attempt c.batch
      refine ⟨?_, ?_, ?_⟩
      · rw [h.1, hf.1]
        simp only [List.length_cons]
        omega
      · rw [h.2.1, hf.2.1]
        simp only [List.map_cons, List.sum_cons]
        omega
      · rw [h.2.2, hf.2.2]
        simp only [List.length_cons]
        omega
  refine ⟨?_, ?_, ?_, ?_⟩
  · simpa [freshBudget] using (key calls (freshBudget name)).1
  · simpa [freshBudget] using (key calls (freshBudget name)).2.1
  · simpa [freshBudget] using (key calls (freshBudget name)).2.2
  · intro b c
    exact ⟨_, rfl⟩

/-- C6 (amended): loading the run state never raises when the persisted
file is absent, fails JSON parsing, or parses to a JSON object of any
shape; absent or unparseable content is treated as the empty state (no
current task, attempt 0, empty completed/durations/failed lists).
Valid JSON whose top level is not an object is excluded — see the
counterexample. -/
theorem C6_raw_state_total_amended :
    rawStateOfFile .absent = .ok emptyRawState ∧
    rawStateOfFile .notJson = .ok emptyRawState ∧
    (∀ fields, ∃ r, rawStateOfFile (.json (.obj fields)) = .ok r) ∧
    emptyRawState.current_task = .null ∧ emptyRawState.attempt = .num 0 ∧
    emptyRawState.completed = .arr [] ∧ emptyRawState.task_durations = .arr [] ∧
    emptyRawState.failed = .arr [] :=
  ⟨rfl, rfl, fun _ => ⟨_, rfl⟩, rfl, rfl, rfl, rfl, rfl⟩

/-- C6 counterexample: the file content `[]` is valid JSON of an
unexpected (non-object) shape, and loading it raises (`data.get` on a
list is an `AttributeError`) instead of yielding the empty state. -/
theorem C6_counterexample :
    rawStateOfFile (.json (.arr [])) = .error "AttributeError" := rfl

/-- C9 (amended): for every state whose completed list holds at most
one entry for T — in particular every state the store itself produces —
calling `mark_done(T)` twice leaves exactly one completed entry for T
(the second call adds nothing), and both calls clear the in-progress
fields (current task, attempt, fix logs, task start timestamp). -/
theorem C9_mark_done_idempotent (parse : String → Option Int) (now1 now2 : Int)
    (disk : StateRec) (T : String) (h1 : countFor T disk.completed ≤ 1) :
    countFor T (mark_done parse now2 (mark_done parse now1 disk T) T).completed = 1 ∧
    (mark_done parse now2 (mark_done parse now1 disk T) T).completed
      = (mark_done parse now1 disk T).completed ∧
    ((mark_done parse now1 disk T).current_task = none ∧
      (mark_done parse now1 disk T).attempt = 0 ∧
      (mark_done parse now1 disk T).fix_logs = none ∧
      (mark_done parse now1 disk T).task_started_at = none) ∧
    ((mark_done parse now2 (mark_done parse now1 disk T) T).current_task = none ∧
      (mark_done parse now2 (mark_done parse now1 disk T) T).attempt = 0 ∧
      (mark_done parse now2 (mark_done parse now1 disk T) T).fix_logs = none ∧
      (mark_done parse now2 (mark_done parse now1 disk T) T).task_started_at = none) := by
  have hcount1 : countFor T (mark_done parse now1 disk T).completed = 1 := by
    by_cases hmem : T ∈ disk.completed.map CompletedEntry.taskOf
    · have hpos := (mem_taskOf_iff_countFor_pos T disk.completed).mp hmem
      have : countFor T disk.completed = 1 := by omega
      simp only [mark_done, readNorm]
      rw [if_pos hmem]
      exact this
    · have hzero : countFor T disk.completed = 0 := by
        by_contra h
        exact hmem ((mem_taskOf_iff_countFor_pos T disk.completed).mpr (by omega))
      simp only [mark_done, readNorm]
      rw [if_neg hmem, countFor_append_entry, hzero]
  have hmem1 : T ∈ (mark_done parse now1 disk T).completed.map CompletedEntry.taskOf :=
    (mem_taskOf_iff_countFor_pos T _).mpr (by omega)
  have hsame : (mark_done parse now2 (mark_done parse now1 disk T) T).completed
      = (mark_done parse now1 disk T).completed := by
    simp only [mark_done, readNorm]
    rw [if_pos (by simpa [mark_done, readNorm] using hmem1)]
  refine ⟨by rw [hsame]; exact hcount1, hsame, ⟨rfl, rfl, rfl, rfl⟩, ⟨rfl, rfl, rfl, rfl⟩⟩

/-- C9 counterexample: a persisted state whose completed list already
holds two (legacy) entries for the task keeps both of them — after two
`mark_done` calls the completed list does not contain exactly one entry
for the task. -/
theorem C9_counterexample :
    countFor "## 001 - A"
      (mark_done (fun _ => none) 0
        (mark_done (fun _ => none) 0
          ⟨none, 0, none, [.legacy "## 001 - A", .legacy "## 001 - A"], none, [], []⟩
          "## 001 - A")
        "## 001 - A").completed ≠ 1 := by
  decide

/-- C9 witness: from the empty state, two `mark_done` calls for
`## 001 - A` leave exactly one completed entry and clear the
in-progress fields. -/
theorem C9_witness :
    countFor "## 001 - A"
      (mark_done (fun _ => none) 7
        (mark_done (fun _ => none) 5 ⟨none, 0, none, [], none, [], []⟩ "## 001 - A")
        "## 001 - A").completed = 1 ∧
    (mark_done (fun _ => none) 5 ⟨none, 0, none, [], none, [], []⟩
      "## 001 - A").current_task = none :=
  ⟨(C9_mark_done_idempotent (fun _ => none) 5 7 ⟨none, 0, none, [], none, [], []⟩
      "## 001 - A" (by decide)).1,
   ((C9_mark_done_idempotent (fun _ => none) 5 7 ⟨none, 0, none, [], none, [], []⟩
      "## 001 - A" (by decide)).2.2.1).1⟩

/-- C10: `save_runner_state` stamps `task_started_at` exactly on an
attempt-0 save with no (truthy) timestamp already present; a save at a
later attempt, or with a timestamp present, leaves it unchanged; and
the completed list, the task durations and the failed list are always
preserved. -/
theorem C10_save_frame (disk : StateRec) (task : String) (attempt : Int)
    (logs : Option String) (now : String) :
    (attempt = 0 → optStrTruthy disk.task_started_at = false →
      (save_runner_state disk task attempt logs now).task_started_at = some now) ∧
    (attempt ≠ 0 →
      (save_runner_state disk task attempt logs now).task_started_at
        = disk.task_started_at) ∧
    (optStrTruthy disk.task_started_at = true →
      (save_runner_state disk task attempt logs now).task_started_at
        = disk.task_started_at) ∧
    (save_runner_state disk task attempt logs now).completed = disk.completed ∧
    (save_runner_state disk task attempt logs now).task_durations
      = disk.task_durations ∧
    (save_runner_state disk task attempt logs now).failed = disk.failed := by
  refine ⟨?_, ?_, ?_, rfl, rfl, rfl⟩
  · intro h0 hts
    simp [save_runner_state, readNorm, h0, hts]
  · intro hne
    simp [save_runner_state, readNorm, hne]
  · intro hts
    simp [save_runner_state, readNorm, hts]

/-- C10 witness: a resumed save (attempt 1) and a save over an existing
timestamp both preserve the timestamp, and an initial save stamps it;
the frame fields are untouched. -/
theorem C10_witness :
    (save_runner_state ⟨none, 0, none, [], some "T0", [3], ["f"]⟩ "## 002 - B" 1
      (some "log") "T1").task_started_at = some "T0" ∧
    (save_runner_state ⟨none, 0, none, [], none, [], []⟩ "## 002 - B" 0
      none "T1").task_started_at = some "T1" ∧
    (save_runner_state ⟨none, 0, none, [], some "T0", [3], ["f"]⟩ "## 002 - B" 1
      (some "log") "T1").task_durations = [3] :=
  ⟨(C10_save_frame ⟨none, 0, none, [], some "T0", [3], ["f"]⟩ "## 002 - B" 1
      (some "log") "T1").2.1 (by decide),
   (C10_save_frame ⟨none, 0, none, [], none, [], []⟩ "## 002 - B" 0
      none "T1").1 rfl (by decide),
   by
    have h := (C10_save_frame ⟨none, 0, none, [], some "T0", [3], ["f"]⟩ "## 002 - B" 1
      (some "log") "T1").2.2.2.2.1
    simpa using h⟩

/-! ## Claim theorems: agent adapter and budget guard -/

/-- Equation for the success flag of `check_model_error`: the scan
succeeds exactly when no pattern finds a match in the tail. -/
theorem check_model_error_isOk_eq (lines : List String) :
    (check_model_error lines).isOk
      = (modelErrorPatterns.find? fun p => rsearch p (logTail lines)).isNone := by
  unfold check_model_error
  cases h : modelErrorPatterns.find? (fun p => rsearch p (logTail lines)) <;>
    simp [h, Except.isOk, Except.toBool]

/-- C7: the adapter's failed-invocation scan raises the non-retriable
`ModelConfigError` exactly when one of the fixed model-misconfiguration
signatures matches the tail (last 80 lines) of the log, and never
otherwise; in particular a log whose tail contains the line
`"Error: model not found"` raises, while an innocuous log does not. -/
theorem C7_model_error_detection :
    (∀ lines : List String,
      (check_model_error lines).isOk = false ↔
        ∃ p ∈ modelErrorPatterns, rsearch p (logTail lines) = true) ∧
    (check_model_error ["Error: model not found"]).isOk = false ∧
    (check_model_error ["all tests passed", "done"]).isOk = true := by
  refine ⟨?_, by decide, by decide⟩
  intro lines
  rw [check_model_error_isOk_eq]
  rw [show (∃ p ∈ modelErrorPatterns, rsearch p (logTail lines) = true) ↔
      (modelErrorPatterns.find? fun p => rsearch p (logTail lines)).isSome by
    rw [List.find?_isSome]]
  cases modelErrorPatterns.find? fun p => rsearch p (logTail lines) <;> simp

/-- C8: the monthly budget guard resets the baseline to the current
cumulative reading whenever the stored month key differs from the
current one (or no baseline is stored), making the new month start at
zero spend, and it hard-stops with exit code 2 exactly when the
month-to-date spend (current reading minus the effective baseline,
clamped at zero) reaches the configured ceiling; otherwise it returns
normally. -/
theorem C8_monthly_budget_guard (stored : StoredBudgetState) (month_key : String)
    (stats : TokenStats) (limit : Nat) (st : StoredBudgetState)
    (ex : Except Nat Unit)
    (h : check_monthly_budget stored month_key stats limit = (st, ex)) :
    (stored.month ≠ some month_key ∨ stored.baseline_stats = none →
      st = ⟨some month_key, some stats⟩ ∧ (spentStats stats stats).total = 0) ∧
    (ex = .error 2 ↔
      limit ≤ (spentStats stats (st.baseline_stats.getD ⟨0, 0, 0, 0, 0⟩)).total) ∧
    (ex = .error 2 ∨ ex = .ok ()) := by
  have hst : st = (check_monthly_budget stored month_key stats limit).1 := by
    rw [h]
  have hex : ex = (check_monthly_budget stored month_key stats limit).2 := by
    rw [h]
  subst hst hex
  refine ⟨?_, ?_, ?_⟩
  · intro hreset
    constructor
    · simp only [check_monthly_budget]
      rw [if_pos hreset]
    · simp [spentStats]
  · simp only [check_monthly_budget]
    by_cases hcond : stored.month ≠ some month_key ∨ stored.baseline_stats = none
    · rw [if_pos hcond]
      by_cases hge : (spentStats stats ((Option.some stats).getD ⟨0, 0, 0, 0, 0⟩)).total ≥ limit
      · simp only [hge, ge_iff_le, if_pos hge]
        simp [hge]
      · simp only [ge_iff_le, if_neg hge]
        simp only [ge_iff_le] at hge
        constructor
        · intro hcontra
          exact absurd hcontra (by simp)
        · intro hle
          exact absurd hle hge
    · rw [if_neg hcond]
      by_cases hge : (spentStats stats (stored.baseline_stats.getD ⟨0, 0, 0, 0, 0⟩)).total ≥ limit
      · simp only [ge_iff_le, if_pos hge]
        simp [hge]
      · simp only [ge_iff_le, if_neg hge]
        simp only [ge_iff_le] at hge
        constructor
        · intro hcontra
          exact absurd hcontra (by simp)
        · intro hle
          exact absurd hle hge
  · simp only [check_monthly_budget]
    by_cases hge : (spentStats stats
        (((if stored.month ≠ some month_key ∨ stored.baseline_stats = none then
            ({ month := some month_key, baseline_stats := some stats } : StoredBudgetState)
          else stored).baseline_stats).getD ⟨0, 0, 0, 0, 0⟩)).total ≥ limit
    · left
      simp only [ge_iff_le] at hge
      simp [hge]
    · right
      simp only [ge_iff_le] at hge
      simp [hge]

/-- C8 witness: a stored September baseline checked in October is reset
to the current reading and the call returns normally under a positive
ceiling; with a matching month and a ceiling already reached, the guard
exits with code 2. -/
theorem C8_witness :
    (⟨some "2025-10", some ⟨1, 2, 3, 4, 10⟩⟩ : StoredBudgetState)
        = ⟨some "2025-10", some ⟨1, 2, 3, 4, 10⟩⟩ ∧
    (spentStats ⟨1, 2, 3, 4, 10⟩ ⟨1, 2, 3, 4, 10⟩).total = 0 ∧
    ((Except.error 2 : Except Nat Unit) = .error 2 ↔
      (5 : Nat) ≤ (spentStats ⟨0, 0, 0, 0, 20⟩ ⟨0, 0, 0, 0, 8⟩).total) := by
  have h1 := C8_monthly_budget_guard ⟨some "2025-09", some ⟨0, 0, 0, 0, 7⟩⟩ "2025-10"
    ⟨1, 2, 3, 4, 10⟩ 5 _ _ rfl
  have h2 := C8_monthly_budget_guard ⟨some "2025-10", some ⟨0, 0, 0, 0, 8⟩⟩ "2025-10"
    ⟨0, 0, 0, 0, 20⟩ 5 _ _ rfl
  refine ⟨(h1.1 (by decide)).1, (h1.1 (by decide)).2, ?_⟩
  constructor
  · intro _
    exact h2.2.1.mp rfl
  · intro _
    rfl

/-! ## Task-graph lemmas -/

section TaskGraphLemmas

variable {τ : Type} [DecidableEq τ] (ms : τ → Bool) (graph : τ → List τ)

/-- Every nonempty list has an element of minimal measure. -/
theorem exists_min_measure (f : τ → Nat) (l : List τ) (h : l ≠ []) :
    ∃ a ∈ l, ∀ b ∈ l, f a ≤ f b := by
  induction l with
  | nil => exact absurd rfl h
  | cons x xs ih =>
    by_cases hxs : xs = []
    · subst hxs
      exact ⟨x, by simp, by simp⟩
    · obtain ⟨a, ha, hmin⟩ := ih hxs
      by_cases hfa : f x ≤ f a
      · refine ⟨x, by simp, ?_⟩
        intro b hb
        rcases List.mem_cons.mp hb with rfl | hb
        · exact le_refl _
        · exact le_trans hfa (hmin b hb)
      · refine ⟨a, List.mem_cons_of_mem x ha, ?_⟩
        intro b hb
        rcases List.mem_cons.mp hb with rfl | hb
        · exact le_of_lt (Nat.lt_of_not_le hfa)
        · exact hmin b hb

/-- The picked layer is a sublist of the candidates. -/
theorem pickLayer_subset (c : List τ) : ∀ t ∈ pickLayer ms c, t ∈ c := by
  intro t ht
  unfold pickLayer at ht
  rcases h : c.filter ms with _ | ⟨m, tl⟩
  · rw [h] at ht
    exact List.mem_of_mem_filter ht
  · rw [h] at ht
    have hm : m ∈ c.filter ms := by rw [h]; exact List.mem_cons_self m tl
    rcases List.mem_singleton.mp ht with rfl
    exact List.mem_of_mem_filter hm

/-- The picked layer is nonempty when the candidates are. -/
theorem pickLayer_ne_nil (c : List τ) (hc : c ≠ []) : pickLayer ms c ≠ [] := by
  unfold pickLayer
  rcases h : c.filter ms with _ | ⟨m, tl⟩
  · have hall : ∀ x ∈ c, ms x = false := by
      intro x hx
      have := List.filter_eq_nil_iff.mp h x hx
      simpa using this
    rw [List.filter_eq_self.mpr fun a ha => by simp [hall a ha]]
    exact hc
  · simp

/-- A milestone in the picked layer is the whole layer. -/
theorem pickLayer_milestone (c : List τ) :
    ∀ t ∈ pickLayer ms c, ms t = true → pickLayer ms c = [t] := by
  intro t ht hm
  unfold pickLayer at ht ⊢
  rcases h : c.filter ms with _ | ⟨m, tl⟩
  · rw [h] at ht
    have := List.of_mem_filter ht
    simp [hm] at this
  · rw [h] at ht
    rcases List.mem_singleton.mp ht with rfl
    rfl

/-- The produced layer is a sublist of the remaining tasks. -/
theorem layerOf_subset (placed remaining : List τ) :
    ∀ t ∈ layerOf ms graph placed remaining, t ∈ remaining := by
  intro t ht
  unfold layerOf at ht
  have := pickLayer_subset ms _ t ht
  by_cases h : (remaining.filter (depsIn graph placed)).isEmpty
  · rw [if_pos h] at this
    exact this
  · rw [if_neg h] at this
    exact List.mem_of_mem_filter this

/-- The produced layer is nonempty when tasks remain. -/
theorem layerOf_ne_nil (placed remaining : List τ) (h : remaining ≠ []) :
    layerOf ms graph placed remaining ≠ [] := by
  unfold layerOf
  by_cases he : (remaining.filter (depsIn graph placed)).isEmpty
  · rw [if_pos he]
    exact pickLayer_ne_nil ms remaining h
  · rw [if_neg he]
    exact pickLayer_ne_nil ms _ fun hnil => he (by simp [hnil])

/-- When some remaining task is placeable, there is no fallback: every
task of the produced layer has all its dependencies placed. -/
theorem layerOf_depsIn (placed remaining : List τ)
    (hx : ∃ x ∈ remaining, depsIn graph placed x = true) :
    ∀ t ∈ layerOf ms graph placed remaining, depsIn graph placed t = true := by
  intro t ht
  unfold layerOf at ht
  have hne : (remaining.filter (depsIn graph placed)).isEmpty = false := by
    obtain ⟨x, hx1, hx2⟩ := hx
    rcases hfe : (remaining.filter (depsIn graph placed)) with _ | _
    · exact absurd (List.filter_eq_nil_iff.mp hfe x hx1) (by simp [hx2])
    · simp [hfe]
  rw [hne] at ht
  simp only [Bool.false_eq_true, if_false] at ht
  exact List.of_mem_filter (pickLayer_subset ms _ t ht)

/-- A dependency-minimal remaining task is placeable, provided every
dependency of a remaining task is placed or remaining and dependencies
strictly descend along the measure `f`. -/
theorem exists_placeable (f : τ → Nat) (hf : ∀ t d, d ∈ graph t → f d < f t)
    (placed remaining : List τ) (hne : remaining ≠ [])
    (hcov : ∀ t ∈ remaining, ∀ d ∈ graph t, d ∈ placed ∨ d ∈ remaining) :
    ∃ x ∈ remaining, depsIn graph placed x = true := by
  obtain ⟨a, ha, hmin⟩ := exists_min_measure f remaining hne
  refine ⟨a, ha, ?_⟩
  rw [depsIn, List.all_eq_true]
  intro d hd
  rcases hcov a ha d hd with h | h
  · exact decide_eq_true h
  · exact absurd (hmin d h) (Nat.not_le.mpr (hf a d hd))

/-- `layersAux` on an empty remainder yields no layers. -/
theorem layersAux_nil (fuel : Nat) (placed : List τ) :
    layersAux ms graph fuel placed [] = [] := by
  cases fuel <;> rfl

/-- A nonempty list is not `isEmpty`. -/
theorem isEmpty_false_of_ne_nil {l : List τ} (h : l ≠ []) : l.isEmpty = false := by
  rcases l with _ | _
  · exact absurd rfl h
  · rfl

/-- The unfolding equation of one non-trivial `layersAux` iteration. -/
theorem layersAux_cons_eq (fuel : Nat) (placed remaining : List τ)
    (h : remaining ≠ []) :
    layersAux ms graph (fuel + 1) placed remaining
      = layerOf ms graph placed remaining ::
        layersAux ms graph fuel (placed ++ layerOf ms graph placed remaining)
          (remaining.filter fun t =>
            !decide (t ∈ placed ++ layerOf ms graph placed remaining)) := by
  have he : remaining.isEmpty = false := isEmpty_false_of_ne_nil h
  simp only [layersAux, he, Bool.false_eq_true, if_false]

/-- Every task in the produced layers was remaining. -/
theorem layersAux_join_subset (fuel : Nat) :
    ∀ (placed remaining : List τ) (t : τ),
      t ∈ (layersAux ms graph fuel placed remaining).flatten → t ∈ remaining := by
  induction fuel with
  | zero => intro placed remaining t ht; simp [layersAux] at ht
  | succ fuel ih =>
    intro placed remaining t ht
    by_cases hne : remaining = []
    · subst hne; rw [layersAux_nil] at ht; simp at ht
    · rw [layersAux_cons_eq ms graph fuel placed remaining hne, List.flatten_cons] at ht
      rcases List.mem_append.mp ht with h | h
      · exact layerOf_subset ms graph _ _ t h
      · exact List.mem_of_mem_filter (ih _ _ t h)

/-- The remainder strictly shrinks at every loop iteration. -/
theorem remaining_shrinks (placed remaining : List τ) (h : remaining ≠ []) :
    (remaining.filter fun t =>
        !decide (t ∈ placed ++ layerOf ms graph placed remaining)).length
      < remaining.length := by
  apply List.length_filter_lt_length_iff_exists.mpr
  rcases hl : layerOf ms graph placed remaining with _ | ⟨x, xs⟩
  · exact absurd hl (layerOf_ne_nil ms graph placed remaining h)
  · have hx : x ∈ layerOf ms graph placed remaining := by simp [hl]
    refine ⟨x, layerOf_subset ms graph _ _ x hx, ?_⟩
    simp [List.mem_append, hx]

/-- Every remaining task not yet placed ends up in some layer. -/
theorem layersAux_cover (fuel : Nat) :
    ∀ (placed remaining : List τ), remaining.length ≤ fuel →
      ∀ t ∈ remaining, t ∉ placed →
        t ∈ (layersAux ms graph fuel placed remaining).flatten := by
  induction fuel with
  | zero =>
    intro placed remaining hlen t ht _
    rw [List.length_eq_zero.mp (Nat.le_zero.mp hlen)] at ht
    simp at ht
  | succ fuel ih =>
    intro placed remaining hlen t ht hnp
    have hne : remaining ≠ [] := fun hn => by simp [hn] at ht
    rw [layersAux_cons_eq ms graph fuel placed remaining hne, List.flatten_cons]
    rw [List.mem_append]
    by_cases hpl : t ∈ placed ++ layerOf ms graph placed remaining
    · left
      rcases List.mem_append.mp hpl with h | h
      · exact absurd h hnp
      · exact h
    · right
      refine ih _ _ ?_ t ?_ hpl
      · have := remaining_shrinks ms graph placed remaining hne
        omega
      · exact List.mem_filter.mpr ⟨ht, by simpa using hpl⟩

/-- Distinct produced layers are disjoint. -/
theorem layersAux_disjoint (fuel : Nat) :
    ∀ (placed remaining : List τ),
      List.Pairwise (fun L M => ∀ t ∈ L, t ∉ M)
        (layersAux ms graph fuel placed remaining) := by
  induction fuel with
  | zero => intro placed remaining; simp [layersAux]
  | succ fuel ih =>
    intro placed remaining
    by_cases hne : remaining = []
    · subst hne; rw [layersAux_nil]; exact List.Pairwise.nil
    · rw [layersAux_cons_eq ms graph fuel placed remaining hne]
      refine List.Pairwise.cons ?_ (ih _ _)
      intro M hM t htL htM
      have hjoin : t ∈ (layersAux ms graph fuel
          (placed ++ layerOf ms graph placed remaining)
          (remaining.filter fun x =>
            !decide (x ∈ placed ++ layerOf ms graph placed remaining))).flatten :=
        List.mem_flatten.mpr ⟨M, hM, htM⟩
      have hrem := layersAux_join_subset ms graph fuel _ _ t hjoin
      have := (List.mem_filter.mp hrem).2
      simp only [Bool.not_eq_eq_eq_not, Bool.not_true, decide_eq_false_iff_not] at this
      exact this (List.mem_append_right placed htL)

/-- A milestone anywhere in the produced layers occupies a singleton
layer. -/
theorem layersAux_milestone (fuel : Nat) :
    ∀ (placed remaining : List τ) (L : List τ),
      L ∈ layersAux ms graph fuel placed remaining →
      ∀ t ∈ L, ms t = true → L = [t] := by
  induction fuel with
  | zero => intro placed remaining L hL; simp [layersAux] at hL
  | succ fuel ih =>
    intro placed remaining L hL t htL hm
    by_cases hne : remaining = []
    · subst hne; rw [layersAux_nil] at hL; simp at hL
    · rw [layersAux_cons_eq ms graph fuel placed remaining hne] at hL
      rcases List.mem_cons.mp hL with rfl | hL
      · exact pickLayer_milestone ms _ t htL hm
      · exact ih _ _ L hL t htL hm

/-- The fallback clause: when no remaining task is placeable and no
remaining task is a milestone, the whole remainder becomes one layer. -/
theorem layersAux_fallback (fuel : Nat) (placed remaining : List τ)
    (hne : remaining ≠ []) (hfuel : 1 ≤ fuel)
    (hdeps : ∀ t ∈ remaining, depsIn graph placed t = false)
    (hms : ∀ t ∈ remaining, ms t = false) :
    layersAux ms graph fuel placed remaining = [remaining] := by
  rcases fuel with _ | fuel
  · omega
  · have hemp : remaining.isEmpty = false := by
      rcases remaining with _ | _
      · exact absurd rfl hne
      · rfl
    have hc0 : remaining.filter (depsIn graph placed) = [] :=
      List.filter_eq_nil_iff.mpr fun a ha => by simp [hdeps a ha]
    have hlayer : layerOf ms graph placed remaining = remaining := by
      unfold layerOf
      rw [hc0]
      simp only [List.isEmpty_nil, if_true]
      unfold pickLayer
      rw [List.filter_eq_nil_iff.mpr fun a ha => by simp [hms a ha]]
      exact List.filter_eq_self.mpr fun a ha => by simp [hms a ha]
    unfold layersAux
    rw [hemp]
    simp only [Bool.false_eq_true, if_false, hlayer]
    have hrest : remaining.filter (fun t => !decide (t ∈ placed ++ remaining)) = [] :=
      List.filter_eq_nil_iff.mpr fun a ha => by
        simp [List.mem_append_right placed ha]
    rw [hrest, layersAux_nil]

/-- Dependencies of a task in layer `i` are placed beforehand: already
in `placed`, or in a layer strictly before `i`. -/
theorem layersAux_deps_before (f : τ → Nat) (hf : ∀ t d, d ∈ graph t → f d < f t)
    (fuel : Nat) :
    ∀ (placed remaining : List τ), remaining.length ≤ fuel →
      (∀ t ∈ remaining, ∀ d ∈ graph t, d ∈ placed ∨ d ∈ remaining) →
      ∀ (i : Nat) (hi : i < (layersAux ms graph fuel placed remaining).length)
        (t : τ), t ∈ (layersAux ms graph fuel placed remaining).get ⟨i, hi⟩ →
        ∀ d ∈ graph t, d ∈ placed ∨
          ∃ j, ∃ hj : j < (layersAux ms graph fuel placed remaining).length,
            j < i ∧ d ∈ (layersAux ms graph fuel placed remaining).get ⟨j, hj⟩ := by
  induction fuel with
  | zero =>
    intro placed remaining _ _ i hi
    simp [layersAux] at hi
  | succ fuel ih =>
    intro placed remaining hlen hcov i hi t ht d hd
    by_cases hne : remaining = []
    · subst hne
      rw [layersAux_nil] at hi
      simp at hi
    · have hcons := layersAux_cons_eq ms graph fuel placed remaining hne
      rcases i with _ | k
      · have h0 : (layersAux ms graph (fuel + 1) placed remaining).get ⟨0, hi⟩
            = layerOf ms graph placed remaining := by
          rw [List.get_of_eq hcons]
          rfl
        rw [h0] at ht
        have hplace : depsIn graph placed t = true :=
          layerOf_depsIn ms graph placed remaining
            (exists_placeable graph f hf placed remaining hne hcov) t ht
        exact Or.inl (of_decide_eq_true (List.all_eq_true.mp hplace d hd))
      · have hlen2 : (remaining.filter fun x =>
            !decide (x ∈ placed ++ layerOf ms graph placed remaining)).length ≤ fuel := by
          have := remaining_shrinks ms graph placed remaining hne
          omega
        have hcov2 : ∀ x ∈ (remaining.filter fun x =>
              !decide (x ∈ placed ++ layerOf ms graph placed remaining)),
            ∀ e ∈ graph x, e ∈ placed ++ layerOf ms graph placed remaining ∨
              e ∈ (remaining.filter fun x =>
                !decide (x ∈ placed ++ layerOf ms graph placed remaining)) := by
          intro x hx e he
          rcases hcov x (List.mem_of_mem_filter hx) e he with h | h
          · exact Or.inl (List.mem_append_left _ h)
          · by_cases hp : e ∈ placed ++ layerOf ms graph placed remaining
            · exact Or.inl hp
            · exact Or.inr (List.mem_filter.mpr ⟨h, by simpa using hp⟩)
        have hkl : k < (layersAux ms graph fuel
            (placed ++ layerOf ms graph placed remaining)
            (remaining.filter fun x =>
              !decide (x ∈ placed ++ layerOf ms graph placed remaining))).length := by
          rw [hcons] at hi
          simpa using Nat.lt_of_succ_lt_succ hi
        have htk : t ∈ (layersAux ms graph fuel
            (placed ++ layerOf ms graph placed remaining)
            (remaining.filter fun x =>
              !decide (x ∈ placed ++ layerOf ms graph placed remaining))).get ⟨k, hkl⟩ := by
          have hg : (layersAux ms graph (fuel + 1) placed remaining).get ⟨k + 1, hi⟩
              = (layersAux ms graph fuel
                  (placed ++ layerOf ms graph placed remaining)
                  (remaining.filter fun x =>
                    !decide (x ∈ placed ++ layerOf ms graph placed remaining))).get
                  ⟨k, hkl⟩ := by
            rw [List.get_of_eq hcons]
            rfl
          rwa [hg] at ht
        rcases ih _ _ hlen2 hcov2 k hkl t htk d hd with h | ⟨j, hj, hjk, hdj⟩
        · rcases List.mem_append.mp h with h | h
          · exact Or.inl h
          · refine Or.inr ⟨0, ?_, Nat.succ_pos k, ?_⟩
            · rw [hcons]
              simp
            · have hg : (layersAux ms graph (fuel + 1) placed remaining).get
                  ⟨0, by rw [hcons]; simp⟩ = layerOf ms graph placed remaining := by
                rw [List.get_of_eq hcons]
                rfl
              rw [hg]
              exact h
        · refine Or.inr ⟨j + 1, ?_, Nat.succ_lt_succ hjk, ?_⟩
          · rw [hcons]
            simpa using Nat.succ_lt_succ hj
          · have hg : (layersAux ms graph (fuel + 1) placed remaining).get
                ⟨j + 1, by rw [hcons]; simpa using Nat.succ_lt_succ hj⟩
                = (layersAux ms graph fuel
                    (placed ++ layerOf ms graph placed remaining)
                    (remaining.filter fun x =>
                      !decide (x ∈ placed ++ layerOf ms graph placed remaining))).get
                    ⟨j, hj⟩ := by
              rw [List.get_of_eq hcons]
              rfl
            rw [hg]
            exact hdj

/-- Soundness of the ready scan: every returned task is undone and has
all dependencies done. -/
theorem readyFromLayers_sound (done : List τ) :
    ∀ (ls : List (List τ)) (t : τ), t ∈ readyFromLayers graph done ls →
      t ∉ done ∧ ∀ d ∈ graph t, d ∈ done := by
  intro ls
  induction ls with
  | nil => intro t ht; simp [readyFromLayers] at ht
  | cons layer rest ih =>
    intro t ht
    unfold readyFromLayers at ht
    by_cases hu : (layer.filter fun x => !decide (x ∈ done)).isEmpty
    · rw [if_pos hu] at ht
      exact ih t ht
    · rw [if_neg hu] at ht
      have h1 := List.mem_of_mem_filter ht
      have h2 := List.of_mem_filter ht
      refine ⟨?_, ?_⟩
      · have := List.of_mem_filter h1
        simpa using this
      · intro d hd
        exact of_decide_eq_true (List.all_eq_true.mp h2 d hd)

/-- The ready scan skips fully-done layers and answers from the first
layer holding an undone task. -/
theorem readyFromLayers_active (done : List τ) :
    ∀ (pre : List (List τ)) (L : List τ) (post : List (List τ)),
      (∀ K ∈ pre, ∀ x ∈ K, x ∈ done) → (∃ x ∈ L, x ∉ done) →
      readyFromLayers graph done (pre ++ L :: post)
        = (L.filter fun x => !decide (x ∈ done)).filter (depsIn graph done) := by
  intro pre
  induction pre with
  | nil =>
    intro L post _ hex
    obtain ⟨x, hx, hnd⟩ := hex
    have hu : (L.filter fun x => !decide (x ∈ done)).isEmpty = false := by
      apply isEmpty_false_of_ne_nil
      intro hnil
      exact absurd (List.filter_eq_nil_iff.mp hnil x hx) (by simpa using hnd)
    simp only [List.nil_append]
    unfold readyFromLayers
    rw [hu]
    simp
  | cons K pre ih =>
    intro L post hpre hex
    have hK : (K.filter fun x => !decide (x ∈ done)).isEmpty = true := by
      rw [List.filter_eq_nil_iff.mpr fun a ha => by
        simp [hpre K (by simp) a ha]]
      rfl
    simp only [List.cons_append]
    unfold readyFromLayers
    rw [hK]
    simp only [if_true]
    exact ih L post (fun J hJ => hpre J (List.mem_cons_of_mem K hJ)) hex

/-- The ready scan of fully-done layers is empty. -/
theorem readyFromLayers_all_done (done : List τ) :
    ∀ ls : List (List τ), (∀ L ∈ ls, ∀ x ∈ L, x ∈ done) →
      readyFromLayers graph done ls = [] := by
  intro ls
  induction ls with
  | nil => intro _; rfl
  | cons layer rest ih =>
    intro h
    have hu : (layer.filter fun x => !decide (x ∈ done)).isEmpty = true := by
      rw [List.filter_eq_nil_iff.mpr fun a ha => by
        simp [h layer (by simp) a ha]]
      rfl
    unfold readyFromLayers
    rw [hu]
    simp only [if_true]
    exact ih fun L hL => h L (List.mem_cons_of_mem layer hL)

end TaskGraphLemmas

/-! ## Claim theorems: task graph -/

/-- C1: every task returned by `get_ready_tasks` is not done and has
all its dependencies done; a task depending on itself that is not done
is never returned; the result is exactly the not-done,
dependencies-met subset of the first layer holding a not-done task; and
when every layer is fully done nothing is returned. -/
theorem C1_ready_tasks_correct {τ : Type} [DecidableEq τ] (ms : τ → Bool)
    (graph : τ → List τ) (tasks done : List τ) :
    (∀ t ∈ get_ready_tasks ms graph tasks done,
      t ∉ done ∧ ∀ d ∈ graph t, d ∈ done) ∧
    (∀ t, t ∈ graph t → t ∉ done → t ∉ get_ready_tasks ms graph tasks done) ∧
    (∀ (pre : List (List τ)) (L : List τ) (post : List (List τ)),
      get_task_layers ms graph tasks = pre ++ L :: post →
      (∀ K ∈ pre, ∀ x ∈ K, x ∈ done) → (∃ x ∈ L, x ∉ done) →
      get_ready_tasks ms graph tasks done
        = (L.filter fun x => !decide (x ∈ done)).filter (depsIn graph done)) ∧
    ((∀ L ∈ get_task_layers ms graph tasks, ∀ x ∈ L, x ∈ done) →
      get_ready_tasks ms graph tasks done = []) := by
  refine ⟨?_, ?_, ?_, ?_⟩
  · intro t ht
    exact readyFromLayers_sound graph done (get_task_layers ms graph tasks) t ht
  · intro t hself hnd hready
    have h := readyFromLayers_sound graph done (get_task_layers ms graph tasks) t hready
    exact hnd (h.2 t hself)
  · intro pre L post heq hpre hex
    unfold get_ready_tasks
    rw [heq]
    exact readyFromLayers_active graph done pre L post hpre hex
  · intro hall
    unfold get_ready_tasks
    exact readyFromLayers_all_done graph done (get_task_layers ms graph tasks) hall

/-- C1 witness: diamond graph 2 ← 1 → 3, 4 ← {2, 3}; with task 1 done,
the ready set is computed from the active layer `[2, 3]`. -/
theorem C1_witness :
    get_ready_tasks (fun _ : Nat => false)
      (fun t => if t = 2 then [1] else if t = 3 then [1] else
        if t = 4 then [2, 3] else [])
      [1, 2, 3, 4] [1]
      = (([2, 3].filter fun x => !decide (x ∈ [1])).filter
          (depsIn (fun t => if t = 2 then [1] else if t = 3 then [1] else
            if t = 4 then [2, 3] else []) [1])) :=
  (C1_ready_tasks_correct (fun _ : Nat => false)
      (fun t => if t = 2 then [1] else if t = 3 then [1] else
        if t = 4 then [2, 3] else [])
      [1, 2, 3, 4] [1]).2.2.1
    [[1]] [2, 3] [[4]] (by decide) (by decide) (by decide)

/-- C2 (amended): when dependencies strictly descend along some numeric
measure (no cycles, no self- or forward references) and every
dependency of a listed task is itself listed, each task's layer index
is strictly greater than the layer index of every one of its
dependencies; unconditionally, every milestone task occupies a
singleton layer. -/
theorem C2_layering_strict (T : Type) [DecidableEq T] (ms : T → Bool)
    (graph : T → List T) (tasks : List T) :
    (∀ f : T → Nat, (∀ t d, d ∈ graph t → f d < f t) →
      (∀ t ∈ tasks, ∀ d ∈ graph t, d ∈ tasks) →
      ∀ (i j : Nat) (hi : i < (get_task_layers ms graph tasks).length)
        (hj : j < (get_task_layers ms graph tasks).length) (t d : T),
        t ∈ (get_task_layers ms graph tasks).get ⟨i, hi⟩ → d ∈ graph t →
        d ∈ (get_task_layers ms graph tasks).get ⟨j, hj⟩ → j < i) ∧
    (∀ L ∈ get_task_layers ms graph tasks, ∀ t ∈ L, ms t = true → L = [t]) := by
  constructor
  · intro f hf hclosed i j hi hj t d ht hd hdj
    have hbefore := layersAux_deps_before ms graph f hf tasks.length []
      tasks (le_refl _) (fun t ht d hd => Or.inr (hclosed t ht d hd))
      i hi t ht d hd
    rcases hbefore with h | ⟨jj, hjj, hlt, hdjj⟩
    · simp at h
    · have hdisj := layersAux_disjoint ms graph tasks.length [] tasks
      have hpw := List.pairwise_iff_get.mp hdisj
      rcases Nat.lt_trichotomy j jj with hlt2 | rfl | hlt2
      · exact absurd hdjj (hpw ⟨j, hj⟩ ⟨jj, hjj⟩ hlt2 d hdj)
      · exact hlt
      · exact absurd hdj (hpw ⟨jj, hjj⟩ ⟨j, hj⟩ hlt2 d hdjj)
  · intro L hL t htL hm
    exact layersAux_milestone ms graph tasks.length [] tasks L hL t htL hm

/-- C2 counterexample: with the two-cycle between 0 and 1 the fallback
puts both tasks into one shared layer, so task 0's layer index is not
strictly greater than that of its dependency 1, refuting the claim as
stated for graphs with cycles. -/
theorem C2_counterexample :
    ¬ (∀ (i j : Nat)
        (hi : i < (get_task_layers (fun _ : Nat => false)
          (fun t => if t = 0 then [1] else if t = 1 then [0] else [])
          [0, 1]).length)
        (hj : j < (get_task_layers (fun _ : Nat => false)
          (fun t => if t = 0 then [1] else if t = 1 then [0] else [])
          [0, 1]).length) (t d : Nat),
        t ∈ (get_task_layers (fun _ : Nat => false)
          (fun t => if t = 0 then [1] else if t = 1 then [0] else [])
          [0, 1]).get ⟨i, hi⟩ →
        d ∈ (if t = 0 then [1] else if t = 1 then [0] else []) →
        d ∈ (get_task_layers (fun _ : Nat => false)
          (fun t => if t = 0 then [1] else if t = 1 then [0] else [])
          [0, 1]).get ⟨j, hj⟩ → j < i) := by
  intro h
  exact absurd (h 0 0 (by decide) (by decide) 0 1 (by decide) (by decide) (by decide))
    (by decide)

/-- C2 witness: chain of task 2 depending on task 1, with the identity
measure; task 2 sits in layer 1, its dependency 1 in layer 0, and
0 < 1. -/
theorem C2_witness : (0 : Nat) < 1 :=
  (C2_layering_strict Nat (fun _ => false)
      (fun t => if t = 2 then [1] else []) [1, 2]).1
    id
    (by
      intro t d hd
      by_cases h2 : t = 2
      · subst h2
        simp at hd
        subst hd
        decide
      · simp [h2] at hd)
    (by decide)
    1 0 (by decide) (by decide) 2 1 (by decide) (by decide) (by decide)

/-- C3 (amended): `get_task_layers` always terminates with a partition
of the input tasks (every task in exactly one layer); and at any loop
state where no remaining task has all dependencies placed AND no
remaining task is a milestone, the whole remainder is emitted as one
single fallback layer.  (A milestone among the blocked remainder is
instead emitted alone: see the counterexample.) -/
theorem C3_layers_partition_and_fallback {T : Type} [DecidableEq T]
    (ms : T → Bool) (graph : T → List T) (tasks : List T) :
    (∀ t : T, t ∈ (get_task_layers ms graph tasks).flatten ↔ t ∈ tasks) ∧
    List.Pairwise (fun L M => ∀ t ∈ L, t ∉ M) (get_task_layers ms graph tasks) ∧
    (∀ (placed remaining : List T) (fuel : Nat), remaining ≠ [] →
      remaining.length ≤ fuel →
      (∀ t ∈ remaining, depsIn graph placed t = false) →
      (∀ t ∈ remaining, ms t = false) →
      layersAux ms graph fuel placed remaining = [remaining]) := by
  refine ⟨?_, ?_, ?_⟩
  · intro t
    constructor
    · exact layersAux_join_subset ms graph tasks.length [] tasks t
    · intro ht
      exact layersAux_cover ms graph tasks.length [] tasks (le_refl _) t ht
        (by simp)
  · exact layersAux_disjoint ms graph tasks.length [] tasks
  · intro placed remaining fuel hne hlen hdeps hms
    exact layersAux_fallback ms graph fuel placed remaining hne
      (by have := List.length_pos.mpr hne; omega) hdeps hms

/-- C3 counterexample: in the blocked two-cycle between 0 and 1 where 0
is a milestone, the fallback does NOT put all remaining tasks into one
layer: the milestone is emitted alone and the layer list is
`[[0], [1]]`, not `[[0, 1]]`. -/
theorem C3_counterexample :
    (∀ t ∈ [0, 1],
      depsIn (fun t => if t = 0 then [1] else if t = 1 then [0] else [])
        ([] : List Nat) t = false) ∧
    get_task_layers (fun t : Nat => t == 0)
      (fun t => if t = 0 then [1] else if t = 1 then [0] else [])
      [0, 1] = [[0], [1]] ∧
    ([[0], [1]] : List (List Nat)) ≠ [[0, 1]] := by
  refine ⟨by decide, by decide, by decide⟩

/-- C3 witness: the milestone-free blocked two-cycle between 0 and 1
collapses to the single fallback layer `[0, 1]`. -/
theorem C3_witness :
    layersAux (fun _ : Nat => false)
      (fun t => if t = 0 then [1] else if t = 1 then [0] else [])
      2 [] [0, 1] = [[0, 1]] :=
  (C3_layers_partition_and_fallback (fun _ : Nat => false)
      (fun t => if t = 0 then [1] else if t = 1 then [0] else [])
      [0, 1]).2.2 [] [0, 1] 2 (by decide) (by decide) (by decide) (by decide)

end Agentik
